import Mathlib

/-!
Shallow embedding of the `relay_selector` crate (adaptive relay scheduler).

Conventions of the embedding:
* `f32` values are modelled as exact rationals (`ℚ`).  The base-10 logarithm of
  `f32` is a platform floating-point operation with no shallow embedding; it is
  abstracted as an explicit function parameter `log10 : ℚ → ℚ`.  No theorem in
  this file depends on the value of `log10` beyond choosing a concrete instance
  for concrete evaluations.
* `std::time::Duration` is modelled as its total nanosecond count (`Nat`); the
  derived `Ord` on `Duration` coincides with the order on total nanoseconds,
  and `Duration::as_millis` is truncating division by 10^6.
* Rust panics (index out of bounds, integer division by zero, checked
  arithmetic overflow/underflow on `u8`/`i32`, `Option::unwrap` on `None`,
  failed `assert!`) are modelled as `Except Crash` values; a panic aborts the
  call.  `u8`/`i32` arithmetic is modelled with Rust's checked (debug)
  semantics; release builds wrap instead, which is noted where it matters.
* `HashMap<String, _>` is modelled as an association list with
  prepend-on-insert; `mlookup` returns the most recent binding, which is
  extensionally the hash-map behaviour.
-/

/-- The ways the Rust code can panic. -/
inductive Crash where
  | indexOutOfBounds
  | divByZero
  | arithOverflow
  | arithUnderflow
  | unwrapNone
  | assertFailed
deriving DecidableEq

/-- Association-list model of `HashMap<String, α>`: lookup of the most recent binding. -/
def mlookup {α : Type} (m : List (String × α)) (k : String) : Option α :=
  match m with
  | [] => none
  | (k', v) :: rest => if k' = k then some v else mlookup rest k

/-- Association-list model of `HashMap::insert`: prepend, shadowing older bindings. -/
def mupsert {α : Type} (m : List (String × α)) (k : String) (v : α) : List (String × α) :=
  (k, v) :: m

theorem mlookup_mupsert {α : Type} (m : List (String × α)) (k k' : String) (v : α) :
    mlookup (mupsert m k v) k' = if k = k' then some v else mlookup m k' := rfl

/-- `Duration::as_millis` on a duration given as total nanoseconds. -/
def asMillis (d : Nat) : Nat := d / 1000000

/-- Sorting a vector of durations ascending (`response_times.sort()`), stable as in Rust. -/
def sortDur (l : List Nat) : List Nat := l.insertionSort (· ≤ ·)

/-- `u32 as i32` bit-cast: values at or above 2^31 wrap to negatives. -/
def i32ofU32 (n : Nat) : Int :=
  if n % 4294967296 < 2147483648 then ((n % 4294967296 : Nat) : Int)
  else ((n % 4294967296 : Nat) : Int) - 4294967296

/-- Rust `i32` division: truncation toward zero; panics on division by zero and
on `i32::MIN / -1` overflow. -/
def i32Div (a b : Int) : Except Crash Int :=
  if b = 0 then .error .divByZero
  else if a = -2147483648 ∧ b = -1 then .error .arithOverflow
  else .ok (Int.tdiv a b)

/-- `weights::CONNECTION_WEIGHT`. -/
def CONNECTION_WEIGHT : ℚ := 1 / 10

/-- `weights::calculate_weights` (src/lib/relay_selector/src/weights.rs).

Sorts the response times, takes the median in milliseconds (indexing the middle
elements — out of bounds when the list is empty), computes
`-1.0 * log10(median) + 1.0`, then the success rate by *integer* `i32`
division (`successful_requests as i32 / total_requests as i32` — division by
zero when `total_requests == 0`), and combines them with the trust and vendor
modifiers.  Returns `(initial_weight, current_weight)`. -/
def calculate_weights (log10 : ℚ → ℚ) (response_times : List Nat)
    (successful_requests total_requests : Nat)
    (trust_level_weight preferred_vendor_weight : ℚ)
    (active_connections : Nat) : Except Crash (ℚ × ℚ) := do
  let sorted := sortDur response_times
  let n := sorted.length
  let median_time : ℚ ←
    if n % 2 = 1 then
      match sorted.get? (n / 2) with
      | some d => pure ((asMillis d : Nat) : ℚ)
      | none => Except.error .indexOutOfBounds
    else
      match sorted.get? (n / 2), sorted.get? (n / 2 - 1) with
      | some a, some b => pure (((asMillis a : ℚ) + (asMillis b : ℚ)) / 2)
      | _, _ => Except.error .indexOutOfBounds
  let response_time_weight : ℚ := -1 * log10 median_time + 1
  let success_rate : Int ← i32Div (i32ofU32 successful_requests) (i32ofU32 total_requests)
  let initial_weight :=
    response_time_weight * (success_rate : ℚ) + trust_level_weight + preferred_vendor_weight
  let current_weight := initial_weight + (active_connections : ℚ) * CONNECTION_WEIGHT
  pure (initial_weight, current_weight)

/-- `relay::Statistics` (src/lib/relay_selector/src/relay/statistics.rs).
`active_connections` is a `u8`; both `u32` counters and the sample log are
modelled exactly. -/
structure Statistics where
  requests : Nat
  successful_requests : Nat
  response_times : List Nat
  trust_level : ℚ
  vendor_score : ℚ
  active_connections : Nat
deriving DecidableEq

/-- `Statistics::new`. -/
def Statistics.new : Statistics :=
  { requests := 0
    successful_requests := 0
    response_times := []
    trust_level := 0
    vendor_score := 0
    active_connections := 0 }

/-- `Statistics::add_response_time`: push the datum, then recompute the weights
(the kernel sorts the stored samples in place). -/
def Statistics.add_response_time (log10 : ℚ → ℚ) (s : Statistics) (d : Nat) :
    Except Crash ((ℚ × ℚ) × Statistics) := do
  let times := s.response_times ++ [d]
  let w ← calculate_weights log10 times s.successful_requests s.requests
    s.trust_level s.vendor_score s.active_connections
  pure (w, { s with response_times := sortDur times })

/-- `Statistics::add_request`: increment `requests` (and `successful_requests`
on success), then recompute the weights. -/
def Statistics.add_request (log10 : ℚ → ℚ) (s : Statistics) (is_successful : Bool) :
    Except Crash ((ℚ × ℚ) × Statistics) := do
  let s' := { s with
    requests := s.requests + 1
    successful_requests := if is_successful then s.successful_requests + 1
                           else s.successful_requests }
  let w ← calculate_weights log10 s'.response_times s'.successful_requests s'.requests
    s'.trust_level s'.vendor_score s'.active_connections
  pure (w, { s' with response_times := sortDur s'.response_times })

/-- `Statistics::add_active_connection`: `self.active_connections += 1` on a
`u8` — checked arithmetic overflows at 255 (release builds wrap to 0 instead;
either way there is no `LimitExceeded` check) — then recompute. -/
def Statistics.add_active_connection (log10 : ℚ → ℚ) (s : Statistics) :
    Except Crash ((ℚ × ℚ) × Statistics) := do
  if s.active_connections = 255 then Except.error .arithOverflow
  else
    let s' := { s with active_connections := s.active_connections + 1 }
    let w ← calculate_weights log10 s'.response_times s'.successful_requests s'.requests
      s'.trust_level s'.vendor_score s'.active_connections
    pure (w, { s' with response_times := sortDur s'.response_times })

/-- `Statistics::remove_active_connection`: `self.active_connections -= 1` on a
`u8` — there is no clamp at zero: checked arithmetic underflows at 0 (release
builds wrap to 255 instead) — then recompute. -/
def Statistics.remove_active_connection (log10 : ℚ → ℚ) (s : Statistics) :
    Except Crash ((ℚ × ℚ) × Statistics) := do
  if s.active_connections = 0 then Except.error .arithUnderflow
  else
    let s' := { s with active_connections := s.active_connections - 1 }
    let w ← calculate_weights log10 s'.response_times s'.successful_requests s'.requests
      s'.trust_level s'.vendor_score s'.active_connections
    pure (w, { s' with response_times := sortDur s'.response_times })

/-- `relay::Variant` (src/lib/relay_selector/src/relay/variant.rs). -/
inductive Variant where
  | general
  | inbox
  | outbox
  | local
deriving DecidableEq

/-- Modelled from the spec: the weight kernel as the specification describes it
(section 4.1) — empty sample log is treated as a median of 1.0 ms, the success
rate is *real* division and is 0 when `requests == 0`; the kernel is total.
This definition exists only (a) to give a body to the spec-modelled
`Statistics::update_trust_level` / `update_vendor_score` below, whose source is
missing from the crate snapshot, and (b) as the spec-side comparison point for
the source kernel `calculate_weights`. -/
def calcWeightsSpec (log10 : ℚ → ℚ) (response_times : List Nat)
    (successful_requests total_requests : Nat)
    (trust_level_weight preferred_vendor_weight : ℚ)
    (active_connections : Nat) : ℚ × ℚ :=
  let sorted := sortDur response_times
  let n := sorted.length
  let response_time_weight : ℚ :=
    if n = 0 then 1
    else
      let median : ℚ :=
        if n % 2 = 1 then ((asMillis (sorted.getD (n / 2) 0) : Nat) : ℚ)
        else (((asMillis (sorted.getD (n / 2) 0) : Nat) : ℚ)
              + ((asMillis (sorted.getD (n / 2 - 1) 0) : Nat) : ℚ)) / 2;
      -1 * log10 median + 1
  let success_rate : ℚ :=
    if total_requests = 0 then 0
    else (successful_requests : ℚ) / (total_requests : ℚ)
  let initial_weight :=
    response_time_weight * success_rate + trust_level_weight + preferred_vendor_weight
  (initial_weight, initial_weight + (active_connections : ℚ) * CONNECTION_WEIGHT)

/-- Modelled from the spec: `Statistics::update_trust_level` is called by the
selector but its definition is missing from the crate snapshot
(src/lib/relay_selector/src/relay/statistics.rs has no such method).  Per the
spec (section 4.2) it replaces the field and recomputes the weights; the
recompute follows the spec's total kernel, which also sorts the sample log. -/
def Statistics.update_trust_level (log10 : ℚ → ℚ) (s : Statistics) (v : ℚ) :
    (ℚ × ℚ) × Statistics :=
  let s' := { s with trust_level := v, response_times := sortDur s.response_times }
  (calcWeightsSpec log10 s'.response_times s'.successful_requests s'.requests
    s'.trust_level s'.vendor_score s'.active_connections, s')

/-- Modelled from the spec: `Statistics::update_vendor_score`, missing from the
crate snapshot; replaces the field and recomputes per the spec's total kernel. -/
def Statistics.update_vendor_score (log10 : ℚ → ℚ) (s : Statistics) (v : ℚ) :
    (ℚ × ℚ) × Statistics :=
  let s' := { s with vendor_score := v, response_times := sortDur s.response_times }
  (calcWeightsSpec log10 s'.response_times s'.successful_requests s'.requests
    s'.trust_level s'.vendor_score s'.active_connections, s')

/-- Weight of a relay as read by the sort comparator (`weights[a]`). -/
def getW (weights : List (String × ℚ)) (r : String) : ℚ := (mlookup weights r).getD 0

/-- `weights::weighted_sort` (src/lib/relay_selector/src/weights.rs).

Asserts the relay list and weight map are nonempty and that every compared
relay has a weight (the comparator's per-pair asserts are modelled as one
upfront check; the sorted result is identical whenever every listed relay has
a weight, which is the regime of every run in this file), then stable-sorts by
`total_cmp` on the weights — i.e. **ascending** order of weight, despite the
function's own doc comment promising descending order. -/
def weighted_sort (relays : List String) (weights : List (String × ℚ)) :
    Except Crash (List String) :=
  if relays.isEmpty then .error .assertFailed
  else if weights.isEmpty then .error .assertFailed
  else if relays.all (fun r => (mlookup weights r).isSome) then
    .ok (relays.insertionSort (fun a b => getW weights a ≤ getW weights b))
  else .error .assertFailed

/-- `relay_selector::RelaySelector` (src/lib/relay_selector/src/relay_selector/selector.rs). -/
structure RelaySelector where
  statistics : List (String × Statistics)
  initial_weights : List (String × ℚ)
  current_weights : List (String × ℚ)
  general : List String
  inbox : List String
  outbox : List String
  store_name : String
deriving DecidableEq

/-- `RelaySelector::new`. -/
def RelaySelector.new : RelaySelector :=
  { statistics := [], initial_weights := [], current_weights := []
    general := [], inbox := [], outbox := [], store_name := "" }

/-- The configuration bridge as the selector consumes it: `get_trust_level` and
`get_vendor_score` degrade fetch failures and absent URLs to `0.0` internally
(src/lib/relay_selector/src/config.rs), so the selector observes total
functions from URL to score. -/
structure Config where
  trust : String → ℚ
  vendor : String → ℚ

/-- `RelaySelector::contains`. -/
def RelaySelector.contains (s : RelaySelector) (relay : String) : Bool :=
  s.general.contains relay || s.inbox.contains relay || s.outbox.contains relay

/-- `RelaySelector::get_mut_statistics`: `self.statistics.get_mut(relay).unwrap()` —
panics when the URL is unknown. -/
def RelaySelector.get_mut_statistics (s : RelaySelector) (relay : String) :
    Except Crash Statistics :=
  match mlookup s.statistics relay with
  | none => .error .unwrapNone
  | some st => .ok st

/-- `RelaySelector::update_weights_with_trust_level`: look up the statistics
(unwrap), delegate to the mutator, write both weight maps. -/
def RelaySelector.update_weights_with_trust_level (log10 : ℚ → ℚ) (s : RelaySelector)
    (relay : String) (trust_level : ℚ) : Except Crash RelaySelector := do
  let st ← s.get_mut_statistics relay
  let ((iw, cw), st') := st.update_trust_level log10 trust_level
  pure { s with
    statistics := mupsert s.statistics relay st'
    initial_weights := mupsert s.initial_weights relay iw
    current_weights := mupsert s.current_weights relay cw }

/-- `RelaySelector::update_weights_with_vendor_score`. -/
def RelaySelector.update_weights_with_vendor_score (log10 : ℚ → ℚ) (s : RelaySelector)
    (relay : String) (vendor_score : ℚ) : Except Crash RelaySelector := do
  let st ← s.get_mut_statistics relay
  let ((iw, cw), st') := st.update_vendor_score log10 vendor_score
  pure { s with
    statistics := mupsert s.statistics relay st'
    initial_weights := mupsert s.initial_weights relay iw
    current_weights := mupsert s.current_weights relay cw }

/-- `RelaySelector::update_weights_with_response_time`. -/
def RelaySelector.update_weights_with_response_time (log10 : ℚ → ℚ) (s : RelaySelector)
    (relay : String) (response_time : Nat) : Except Crash RelaySelector := do
  let st ← s.get_mut_statistics relay
  let ((iw, cw), st') ← st.add_response_time log10 response_time
  pure { s with
    statistics := mupsert s.statistics relay st'
    initial_weights := mupsert s.initial_weights relay iw
    current_weights := mupsert s.current_weights relay cw }

/-- `RelaySelector::update_weights_with_request`. -/
def RelaySelector.update_weights_with_request (log10 : ℚ → ℚ) (s : RelaySelector)
    (relay : String) (success : Bool) : Except Crash RelaySelector := do
  let st ← s.get_mut_statistics relay
  let ((iw, cw), st') ← st.add_request log10 success
  pure { s with
    statistics := mupsert s.statistics relay st'
    initial_weights := mupsert s.initial_weights relay iw
    current_weights := mupsert s.current_weights relay cw }

/-- `defaults::DEFAULT_WEIGHT`. -/
def DEFAULT_WEIGHT : ℚ := 1

/-- `RelaySelector::insert` (src/lib/relay_selector/src/relay_selector/selector.rs
lines 148-182).

Pushes the URL onto the variant's list **unconditionally** (there is no
`contains` check, so a duplicate insert duplicates the URL), installs fresh
`Statistics` and `DEFAULT_WEIGHT` entries (overwriting any existing ones),
applies the configured trust level and vendor score, and finally sorts the
affected list (`Local` falls through to `general` for the push but is not
sorted). -/
def RelaySelector.insert (log10 : ℚ → ℚ) (cfg : Config) (s : RelaySelector)
    (relay : String) (variant : Variant) : Except Crash RelaySelector := do
  let s1 :=
    match variant with
    | .general => { s with general := s.general ++ [relay] }
    | .inbox => { s with inbox := s.inbox ++ [relay] }
    | .outbox => { s with outbox := s.outbox ++ [relay] }
    | .local => { s with general := s.general ++ [relay] }
  let s2 := { s1 with
    statistics := mupsert s1.statistics relay Statistics.new
    initial_weights := mupsert s1.initial_weights relay DEFAULT_WEIGHT
    current_weights := mupsert s1.current_weights relay DEFAULT_WEIGHT }
  let s3 ← s2.update_weights_with_trust_level log10 relay (cfg.trust relay)
  let s4 ← s3.update_weights_with_vendor_score log10 relay (cfg.vendor relay)
  match variant with
  | .general => do
      let g ← weighted_sort s4.general s4.current_weights
      pure { s4 with general := g }
  | .inbox => do
      let l ← weighted_sort s4.inbox s4.current_weights
      pure { s4 with inbox := l }
  | .outbox => do
      let l ← weighted_sort s4.outbox s4.current_weights
      pure { s4 with outbox := l }
  | .local => pure s4

/-- The selector-level errors `get_relay_by_weighted_round_robin` reports via
`Result::Err` (as strings in the source). -/
inductive SelError where
  | unsupportedVariant
  | rankOutOfRange
  | notAllowed (url : String)
deriving DecidableEq

/-- The variant's ranked list as chosen by `get_relay_by_weighted_round_robin`;
`Local` (and any other fall-through) yields the `UnsupportedVariant` error. -/
def variantListOf (s : RelaySelector) (v : Variant) : Option (List String) :=
  match v with
  | .general => some s.general
  | .inbox => some s.inbox
  | .outbox => some s.outbox
  | .local => none

/-- The allowlist check of `get_relay_by_weighted_round_robin`: the fetched
allowlist is searched for the selected URL, and a fetch failure degrades to
`false` (`.and_then(..).unwrap_or(false)`) — deny, never permit. -/
def isAllowedOf (fetched : Except String (List String)) (selected : String) : Bool :=
  match fetched with
  | .ok allow_list => allow_list.any (fun relay => relay = selected)
  | .error _ => false

/-- `RelaySelector::get_relay_by_weighted_round_robin`
(src/lib/relay_selector/src/relay_selector/selector.rs lines 273-336).

The allowlist fetch is a suspension point on the configuration bridge; its
outcome is passed in as `fetched`.  The outer `Except Crash` layer is a panic,
the inner `Except SelError` layer is the function's own `Result`. -/
def RelaySelector.get_relay_by_weighted_round_robin (log10 : ℚ → ℚ)
    (fetched : Except String (List String)) (s : RelaySelector) (variant : Variant)
    (rank : Nat) (is_server_side : Bool) :
    Except Crash (Except SelError (String × RelaySelector)) := do
  match variantListOf s variant with
  | none => pure (.error .unsupportedVariant)
  | some ranked =>
    match ranked.get? rank with
    | none => pure (.error .rankOutOfRange)
    | some selected =>
      let is_allowed := isAllowedOf fetched selected
      if is_server_side ∧ ¬ is_allowed then pure (.error (.notAllowed selected))
      else do
        let st ← s.get_mut_statistics selected
        let ((iw, cw), st') ← st.add_active_connection log10
        let s1 := { s with
          statistics := mupsert s.statistics selected st'
          initial_weights := mupsert s.initial_weights selected iw
          current_weights := mupsert s.current_weights selected cw }
        match variant with
        | .general => do
            let g ← weighted_sort s1.general s1.current_weights
            pure (.ok (selected, { s1 with general := g }))
        | .inbox => do
            let l ← weighted_sort s1.inbox s1.current_weights
            pure (.ok (selected, { s1 with inbox := l }))
        | .outbox => do
            let l ← weighted_sort s1.outbox s1.current_weights
            pure (.ok (selected, { s1 with outbox := l }))
        | .local => pure (.ok (selected, s1))

/-- `RelaySelector::return_relay` (selector.rs lines 349-368): looks up the
statistics with `get_mut_statistics` (which **unwraps** — an unknown URL
panics), decrements the active-connection count, writes the weight maps and
re-sorts the variant's list. -/
def RelaySelector.return_relay (log10 : ℚ → ℚ) (s : RelaySelector) (relay : String)
    (variant : Variant) : Except Crash RelaySelector := do
  let st ← s.get_mut_statistics relay
  let ((iw, cw), st') ← st.remove_active_connection log10
  let s1 := { s with
    statistics := mupsert s.statistics relay st'
    initial_weights := mupsert s.initial_weights relay iw
    current_weights := mupsert s.current_weights relay cw }
  match variant with
  | .general => do
      let g ← weighted_sort s1.general s1.current_weights
      pure { s1 with general := g }
  | .inbox => do
      let l ← weighted_sort s1.inbox s1.current_weights
      pure { s1 with inbox := l }
  | .outbox => do
      let l ← weighted_sort s1.outbox s1.current_weights
      pure { s1 with outbox := l }
  | .local => pure s1

/-- `database::schema::Relay` (src/lib/relay_selector/src/database/schema.rs):
the persisted record.  Note there is **no** `active_connections` field. -/
structure Relay where
  url : String
  variant : Variant
  requests : Nat
  successful_requests : Nat
  response_times : List Nat
  trust_level : ℚ
  vendor_score : ℚ
  weight : ℚ
deriving DecidableEq

/-- `Relay::from_repositories`: asserts the selector knows the relay's initial
weight, then snapshots the statistics and the *initial* weight. -/
def Relay.from_repositories (url : String) (variant : Variant) (statistics : Statistics)
    (s : RelaySelector) : Except Crash Relay :=
  match mlookup s.initial_weights url with
  | none => .error .assertFailed
  | some w =>
    .ok { url := url, variant := variant
          requests := statistics.requests
          successful_requests := statistics.successful_requests
          response_times := statistics.response_times
          trust_level := statistics.trust_level
          vendor_score := statistics.vendor_score
          weight := w }

/-- `Relay::to_statistics`: start from `Statistics::new` and copy the persisted
fields — `active_connections` stays 0 because the record does not carry it. -/
def Relay.to_statistics (r : Relay) : Statistics :=
  { Statistics.new with
    requests := r.requests
    successful_requests := r.successful_requests
    response_times := r.response_times
    trust_level := r.trust_level
    vendor_score := r.vendor_score }

/-- The teardown flush (`impl Drop for RelaySelector`, selector.rs lines
31-71): one record per `(variant, url)` pair over the three lists, in the
order general, inbox, outbox.  `&self.statistics[url]` panics when the URL has
no statistics. -/
def RelaySelector.save (s : RelaySelector) : Except Crash (List Relay) := do
  let snap := fun (variant : Variant) (url : String) => do
    match mlookup s.statistics url with
    | none => Except.error Crash.unwrapNone
    | some st => Relay.from_repositories url variant st s
  let gen ← s.general.mapM (snap .general)
  let inb ← s.inbox.mapM (snap .inbox)
  let outb ← s.outbox.mapM (snap .outbox)
  pure (gen ++ inb ++ outb)

/-- IndexedDB `put` into the object store keyed by `url`: replaces any record
with the same key. -/
def storePut (store : List Relay) (r : Relay) : List Relay :=
  store.filter (fun x => x.url ≠ r.url) ++ [r]

/-- `database::insert_or_update` (src/lib/relay_selector/src/database/operations.rs):
batch `put` of the records into the url-keyed store. -/
def insert_or_update (store : List Relay) (relays : List Relay) : List Relay :=
  relays.foldl storePut store

/-- `database::get_all_relays`: an IndexedDB cursor yields the records in key
(url) order. -/
def get_all_relays (store : List Relay) : List Relay :=
  store.insertionSort (fun a b => a.url ≤ b.url)

/-- `defaults::DEFAULT_GENERAL_RELAYS` (= `DEFAULT_INBOX_RELAYS` =
`DEFAULT_OUTBOX_RELAYS`). -/
def DEFAULT_RELAYS : List String :=
  [ "wss://theforest.nostr1.com"
  , "wss://thecitadel.nostr1.com"
  , "wss://nostr.land"
  , "wss://nostr.wine"
  , "wss://nostr.sovbit.host"
  , "wss://nostr21.com" ]

/-- `RelaySelector::populate_defaults`: seed the default relay set into each
variant list that is still empty. -/
def RelaySelector.populate_defaults (log10 : ℚ → ℚ) (cfg : Config) (s : RelaySelector) :
    Except Crash RelaySelector := do
  let s1 ←
    if s.general.isEmpty then
      DEFAULT_RELAYS.foldlM (fun acc url => acc.insert log10 cfg url .general) s
    else pure s
  let s2 ←
    if s1.inbox.isEmpty then
      DEFAULT_RELAYS.foldlM (fun acc url => acc.insert log10 cfg url .inbox) s1
    else pure s1
  if s2.outbox.isEmpty then
    DEFAULT_RELAYS.foldlM (fun acc url => acc.insert log10 cfg url .outbox) s2
  else pure s2

/-- One iteration of the load loop in `RelaySelector::init` (selector.rs lines
91-103): insert the record's URL into its declared variant, then adopt the
persisted statistics verbatim and set both weight maps to the persisted
weight. -/
def loadStep (log10 : ℚ → ℚ) (cfg : Config) (store_name : String) (s : RelaySelector)
    (r : Relay) : Except Crash RelaySelector := do
  let s1 ← s.insert log10 cfg r.url r.variant
  pure { s1 with
    statistics := mupsert s1.statistics r.url r.to_statistics
    initial_weights := mupsert s1.initial_weights r.url r.weight
    current_weights := mupsert s1.current_weights r.url r.weight
    store_name := store_name }

/-- `RelaySelector::init` (selector.rs lines 88-111): run the load loop over
the fetched records, then seed defaults if any variant list is still empty. -/
def RelaySelector.init (log10 : ℚ → ℚ) (cfg : Config) (store_name : String)
    (records : List Relay) : Except Crash RelaySelector := do
  let s ← records.foldlM (loadStep log10 cfg store_name) RelaySelector.new
  if s.general.isEmpty || s.inbox.isEmpty || s.outbox.isEmpty then
    s.populate_defaults log10 cfg
  else pure s

instance {e a : Type} [DecidableEq e] [DecidableEq a] : DecidableEq (Except e a) :=
  fun x y =>
    match x, y with
    | .error u, .error v =>
      if h : u = v then isTrue (by rw [h]) else isFalse (by intro hc; cases hc; exact h rfl)
    | .ok u, .ok v =>
      if h : u = v then isTrue (by rw [h]) else isFalse (by intro hc; cases hc; exact h rfl)
    | .error _, .ok _ => isFalse (by intro hc; cases hc)
    | .ok _, .error _ => isFalse (by intro hc; cases hc)

/-- A concrete stand-in for `f32::log10` used by concrete evaluations; no claim
depends on the logarithm's values. -/
def l10z : ℚ → ℚ := fun _ => 0

/-- A configuration bridge with no configured trust levels or vendor scores
(every URL degrades to 0.0). -/
def cfg0 : Config := { trust := fun _ => 0, vendor := fun _ => 0 }

/-- C1: the claim says the success rate is `successful_requests / requests` as
a real number in [0,1] (0 when `requests == 0`, still returning a result).
The source computes `successful_requests as i32 / total_requests as i32`:
integer division, which panics with a division by zero when `requests == 0`
and collapses 1 success out of 2 requests to a rate of 0 (the spec-side kernel
`calcWeightsSpec` yields 1/2 there).  The claim is right and the code is
wrong. -/
theorem c1_success_rate_is_integer_division_and_panics_on_zero_requests :
    calculate_weights l10z [1000000] 0 0 0 0 0 = .error .divByZero
    ∧ calculate_weights l10z [1000000] 1 2 0 0 0 = .ok (0, 0)
    ∧ calcWeightsSpec l10z [1000000] 1 2 0 0 0 = (1/2, 1/2) := of_decide_eq_true (by with_unfolding_all rfl)

/-- C4: the claim says an empty `response_times` list is treated as a median of
1.0 ms and the call returns normally.  The source indexes
`response_times[len / 2]` on an empty vector, a panic; the spec-side kernel
returns normally on the same input.  The claim is right and the code is
wrong. -/
theorem c4_empty_response_times_panics_out_of_bounds :
    calculate_weights l10z [] 3 4 0 0 0 = .error .indexOutOfBounds
    ∧ calcWeightsSpec l10z [] 3 4 0 0 0 = (3/4, 3/4) := of_decide_eq_true (by with_unfolding_all rfl)

/-- Statistics of a relay with one sample, one successful request, and no
active connection. -/
def statIdle : Statistics :=
  { Statistics.new with
    requests := 1
    successful_requests := 1
    response_times := [1000000] }

/-- A selector holding the single relay `wss://a` in `general`, checked in. -/
def selIdle : RelaySelector :=
  { statistics := [("wss://a", statIdle)]
    initial_weights := [("wss://a", 2)]
    current_weights := [("wss://a", 2)]
    general := ["wss://a"]
    inbox := []
    outbox := []
    store_name := "relay_selector_store" }

/-- C5: the claim says `remove_active_connection` (and `return_relay` on a
checked-in relay) saturates at zero, changes nothing and never panics.  The
source runs `self.active_connections -= 1` on a `u8` with no clamp: at 0 the
checked subtraction underflows (a panic in debug builds; release builds wrap
the counter to 255 — neither leaves it at 0).  The claim is right and the code
is wrong. -/
theorem c5_remove_active_connection_underflows_at_zero :
    statIdle.remove_active_connection l10z = .error .arithUnderflow
    ∧ selIdle.return_relay l10z "wss://a" .general = .error .arithUnderflow := of_decide_eq_true (by with_unfolding_all rfl)

/-- Statistics of a relay saturated at 255 live checkouts. -/
def statFull : Statistics := { statIdle with active_connections := 255 }

/-- A selector holding the single relay `wss://a` in `general` with 255 live
checkouts. -/
def selFull : RelaySelector := { selIdle with statistics := [("wss://a", statFull)] }

/-- C6: the claim says a checkout of a relay with `active_connections == 255`
fails with a `LimitExceeded` error.  The source has no such check anywhere:
`add_active_connection` runs `self.active_connections += 1` on the `u8`, so the
checkout overflows (a panic in debug builds; release builds wrap the counter
to 0) instead of returning any error; `get_relay_by_weighted_round_robin`'s
only `Err` outcomes are the unsupported-variant, rank and allowlist cases.
The claim is right and the code is wrong. -/
theorem c6_checkout_at_255_overflows_instead_of_limit_error :
    statFull.add_active_connection l10z = .error .arithOverflow
    ∧ selFull.get_relay_by_weighted_round_robin l10z (.ok []) .general 0 false
        = .error .arithOverflow := of_decide_eq_true (by with_unfolding_all rfl)

/-- C8: the claim says returning an unknown URL is a soft error — logged, not
raised, with the state unchanged.  The source's `return_relay` begins with
`get_mut_statistics`, i.e. `self.statistics.get_mut(relay).unwrap()`, which
panics on an unknown URL.  The claim is right and the code is wrong. -/
theorem c8_return_of_unknown_url_panics :
    RelaySelector.new.return_relay l10z "wss://unknown" .general
      = .error .unwrapNone := of_decide_eq_true (by with_unfolding_all rfl)

/-- The weight map used by the C3 sort demonstration. -/
def c3w : List (String × ℚ) := [("wss://a", 2), ("wss://b", 1)]

/-- Records for the C3 reachable-state demonstration: two general relays with
persisted weights 2 and 1, plus one inbox and one outbox relay so the default
seeding does not fire. -/
def c3records : List Relay :=
  [ { url := "wss://a", variant := .general, requests := 1, successful_requests := 1,
      response_times := [1000000], trust_level := 0, vendor_score := 0, weight := 2 }
  , { url := "wss://b", variant := .general, requests := 1, successful_requests := 1,
      response_times := [1000000], trust_level := 0, vendor_score := 0, weight := 1 }
  , { url := "wss://i", variant := .inbox, requests := 1, successful_requests := 1,
      response_times := [1000000], trust_level := 0, vendor_score := 0, weight := 1 }
  , { url := "wss://o", variant := .outbox, requests := 1, successful_requests := 1,
      response_times := [1000000], trust_level := 0, vendor_score := 0, weight := 1 } ]

/-- C3: the claim says every variant list is sorted in *descending* order of
`current_weights` with ascending-URL tiebreak after every public call.  The
source's `weighted_sort` comparator is `weights[a].total_cmp(&weights[b])`,
which sorts **ascending** (contradicting its own doc comment "sorts the relays
in descending order of weight") and has no URL tiebreak (ties keep insertion
order under the stable sort).  On weights a=2, b=1 the sort puts the
lower-weight `wss://b` first, and a state reached through `init` on persisted
records exhibits an ascending `general` list.  The claim is right and the code
is wrong. -/
theorem c3_weighted_sort_is_ascending_not_descending :
    weighted_sort ["wss://a", "wss://b"] c3w = .ok ["wss://b", "wss://a"]
    ∧ getW c3w "wss://b" < getW c3w "wss://a"
    ∧ (RelaySelector.init l10z cfg0 "relay_selector_store" c3records).map
        (fun s => (s.general, mlookup s.current_weights "wss://a",
                   mlookup s.current_weights "wss://b"))
        = .ok (["wss://b", "wss://a"], some 2, some 1) := of_decide_eq_true (by with_unfolding_all rfl)

theorem mlookup_mupsert_self {α : Type} (m : List (String × α)) (k : String) (v : α) :
    mlookup (mupsert m k v) k = some v := by
  simp [mupsert, mlookup]

theorem mlookup_mupsert_ne {α : Type} (m : List (String × α)) (k u : String) (v : α)
    (h : u ≠ k) : mlookup (mupsert m k v) u = mlookup m u := by
  simp only [mupsert, mlookup]
  rw [if_neg (fun hc => h hc.symm)]

/-- Every URL in the list has a weight in the map. -/
def allHaveW (weights : List (String × ℚ)) (l : List String) : Prop :=
  ∀ u ∈ l, (mlookup weights u).isSome

/-- The selector invariant that `weighted_sort` relies on: every listed URL
has a current weight. -/
def WC (s : RelaySelector) : Prop :=
  allHaveW s.current_weights s.general
  ∧ allHaveW s.current_weights s.inbox
  ∧ allHaveW s.current_weights s.outbox

theorem weighted_sort_ok (relays : List String) (weights : List (String × ℚ))
    (h1 : relays ≠ []) (h2 : weights ≠ []) (h3 : allHaveW weights relays) :
    weighted_sort relays weights
      = .ok (relays.insertionSort (fun a b => getW weights a ≤ getW weights b)) := by
  unfold weighted_sort
  rw [if_neg (by simp [h1]), if_neg (by simp [h2]), if_pos]
  exact List.all_eq_true.mpr (fun u hu => by simpa using h3 u hu)

theorem mem_wsorted (relays : List String) (weights : List (String × ℚ)) (u : String) :
    u ∈ relays.insertionSort (fun a b => getW weights a ≤ getW weights b) ↔ u ∈ relays :=
  (List.perm_insertionSort _ relays).mem_iff

theorem except_bind_ok {e a b : Type} (x : a) (f : a → Except e b) :
    (Except.ok x >>= f) = f x := rfl

theorem except_pure_eq_ok {e a : Type} (x : a) : (pure x : Except e a) = Except.ok x := rfl

/-- The state `RelaySelector::insert` produces when it completes (proved equal
to the run of `insert` below whenever the state is weights-complete). -/
def insertPost (log10 : ℚ → ℚ) (cfg : Config) (s : RelaySelector) (url : String)
    (v : Variant) : RelaySelector :=
  let st1 := Statistics.new.update_trust_level log10 (cfg.trust url)
  let st2 := st1.2.update_vendor_score log10 (cfg.vendor url)
  let stats := mupsert (mupsert (mupsert s.statistics url Statistics.new) url st1.2) url st2.2
  let iw := mupsert (mupsert (mupsert s.initial_weights url DEFAULT_WEIGHT) url st1.1.1)
    url st2.1.1
  let cw := mupsert (mupsert (mupsert s.current_weights url DEFAULT_WEIGHT) url st1.1.2)
    url st2.1.2
  match v with
  | .general =>
    { s with
      statistics := stats
      initial_weights := iw
      current_weights := cw
      general := (s.general ++ [url]).insertionSort (fun a b => getW cw a ≤ getW cw b) }
  | .inbox =>
    { s with
      statistics := stats
      initial_weights := iw
      current_weights := cw
      inbox := (s.inbox ++ [url]).insertionSort (fun a b => getW cw a ≤ getW cw b) }
  | .outbox =>
    { s with
      statistics := stats
      initial_weights := iw
      current_weights := cw
      outbox := (s.outbox ++ [url]).insertionSort (fun a b => getW cw a ≤ getW cw b) }
  | .local =>
    { s with
      statistics := stats
      initial_weights := iw
      current_weights := cw
      general := s.general ++ [url] }

theorem allHaveW_mupsert (weights : List (String × ℚ)) (l : List String) (k : String) (q : ℚ)
    (h : allHaveW weights l) : allHaveW (mupsert weights k q) l := by
  intro u hu
  by_cases hk : u = k
  · subst hk; simp [mlookup_mupsert_self]
  · rw [mlookup_mupsert_ne _ _ _ _ hk]; exact h u hu

theorem allHaveW_push (weights : List (String × ℚ)) (l : List String) (k : String) (q : ℚ)
    (h : allHaveW weights l) :
    allHaveW (mupsert weights k q) (l ++ [k]) := by
  intro u hu
  rcases List.mem_append.mp hu with hu | hu
  · exact allHaveW_mupsert weights l k q h u hu
  · simp only [List.mem_singleton] at hu
    subst hu; simp [mlookup_mupsert_self]

theorem insert_eq (log10 : ℚ → ℚ) (cfg : Config) (s : RelaySelector) (url : String)
    (v : Variant) (hwc : WC s) :
    s.insert log10 cfg url v = .ok (insertPost log10 cfg s url v) := by
  obtain ⟨hg, hi, ho⟩ := hwc
  cases v
  ·
    simp only [RelaySelector.insert, RelaySelector.update_weights_with_trust_level,
      RelaySelector.update_weights_with_vendor_score, RelaySelector.get_mut_statistics,
      mlookup_mupsert_self, insertPost, except_bind_ok, except_pure_eq_ok]
    rw [weighted_sort_ok _ _ (by simp) (by simp [mupsert]) (allHaveW_mupsert _ _ _ _
      (allHaveW_mupsert _ _ _ _ (allHaveW_push _ _ _ _ hg)))]
    rfl
  ·
    simp only [RelaySelector.insert, RelaySelector.update_weights_with_trust_level,
      RelaySelector.update_weights_with_vendor_score, RelaySelector.get_mut_statistics,
      mlookup_mupsert_self, insertPost, except_bind_ok, except_pure_eq_ok]
    rw [weighted_sort_ok _ _ (by simp) (by simp [mupsert]) (allHaveW_mupsert _ _ _ _
      (allHaveW_mupsert _ _ _ _ (allHaveW_push _ _ _ _ hi)))]
    rfl
  ·
    simp only [RelaySelector.insert, RelaySelector.update_weights_with_trust_level,
      RelaySelector.update_weights_with_vendor_score, RelaySelector.get_mut_statistics,
      mlookup_mupsert_self, insertPost, except_bind_ok, except_pure_eq_ok]
    rw [weighted_sort_ok _ _ (by simp) (by simp [mupsert]) (allHaveW_mupsert _ _ _ _
      (allHaveW_mupsert _ _ _ _ (allHaveW_push _ _ _ _ ho)))]
    rfl
  ·
    simp only [RelaySelector.insert, RelaySelector.update_weights_with_trust_level,
      RelaySelector.update_weights_with_vendor_score, RelaySelector.get_mut_statistics,
      mlookup_mupsert_self, insertPost, except_bind_ok, except_pure_eq_ok]

theorem insertPost_lookups_ne (log10 : ℚ → ℚ) (cfg : Config) (s : RelaySelector)
    (url : String) (v : Variant) (u : String) (h : u ≠ url) :
    mlookup (insertPost log10 cfg s url v).statistics u = mlookup s.statistics u
    ∧ mlookup (insertPost log10 cfg s url v).initial_weights u = mlookup s.initial_weights u
    ∧ mlookup (insertPost log10 cfg s url v).current_weights u = mlookup s.current_weights u := by
  cases v <;> simp [insertPost, mlookup_mupsert_ne _ _ _ _ h]

theorem insertPost_lookups_self (log10 : ℚ → ℚ) (cfg : Config) (s : RelaySelector)
    (url : String) (v : Variant) :
    (mlookup (insertPost log10 cfg s url v).statistics url).isSome
    ∧ (mlookup (insertPost log10 cfg s url v).initial_weights url).isSome
    ∧ (mlookup (insertPost log10 cfg s url v).current_weights url).isSome := by
  cases v <;> simp [insertPost, mlookup_mupsert_self]

theorem insertPost_mem_general (log10 : ℚ → ℚ) (cfg : Config) (s : RelaySelector)
    (url : String) (v : Variant) (u : String) :
    (u ∈ (insertPost log10 cfg s url v).general
      ↔ u ∈ s.general ∨ ((v = .general ∨ v = .local) ∧ u = url)) := by
  cases v <;> simp [insertPost, mem_wsorted, List.mem_append]

theorem insertPost_mem_inbox (log10 : ℚ → ℚ) (cfg : Config) (s : RelaySelector)
    (url : String) (v : Variant) (u : String) :
    (u ∈ (insertPost log10 cfg s url v).inbox ↔ u ∈ s.inbox ∨ (v = .inbox ∧ u = url)) := by
  cases v <;> simp [insertPost, mem_wsorted, List.mem_append]

theorem insertPost_mem_outbox (log10 : ℚ → ℚ) (cfg : Config) (s : RelaySelector)
    (url : String) (v : Variant) (u : String) :
    (u ∈ (insertPost log10 cfg s url v).outbox ↔ u ∈ s.outbox ∨ (v = .outbox ∧ u = url)) := by
  cases v <;> simp [insertPost, mem_wsorted, List.mem_append]

theorem insertPost_store_name (log10 : ℚ → ℚ) (cfg : Config) (s : RelaySelector)
    (url : String) (v : Variant) :
    (insertPost log10 cfg s url v).store_name = s.store_name := by
  cases v <;> rfl

theorem insertPost_WC (log10 : ℚ → ℚ) (cfg : Config) (s : RelaySelector)
    (url : String) (v : Variant) (hwc : WC s) : WC (insertPost log10 cfg s url v) := by
  obtain ⟨hg, hi, ho⟩ := hwc
  have key : ∀ u l, allHaveW s.current_weights l → u ∈ l ∨ u = url →
      (mlookup (insertPost log10 cfg s url v).current_weights u).isSome := by
    intro u l hl hu
    by_cases he : u = url
    · rw [he]; exact (insertPost_lookups_self log10 cfg s url v).2.2
    · rcases hu with hu | hu
      · rw [(insertPost_lookups_ne log10 cfg s url v u he).2.2]
        exact hl u hu
      · exact absurd hu he
  exact ⟨fun u hu => key u s.general hg ((insertPost_mem_general log10 cfg s url v u).mp hu
      |>.imp id (fun h => h.2)),
    fun u hu => key u s.inbox hi ((insertPost_mem_inbox log10 cfg s url v u).mp hu
      |>.imp id (fun h => h.2)),
    fun u hu => key u s.outbox ho ((insertPost_mem_outbox log10 cfg s url v u).mp hu
      |>.imp id (fun h => h.2))⟩

/-- The state one load-loop iteration produces when it completes. -/
def loadPost (log10 : ℚ → ℚ) (cfg : Config) (store_name : String) (s : RelaySelector)
    (r : Relay) : RelaySelector :=
  let s1 := insertPost log10 cfg s r.url r.variant
  { s1 with
    statistics := mupsert s1.statistics r.url r.to_statistics
    initial_weights := mupsert s1.initial_weights r.url r.weight
    current_weights := mupsert s1.current_weights r.url r.weight
    store_name := store_name }

theorem loadStep_eq (log10 : ℚ → ℚ) (cfg : Config) (store_name : String)
    (s : RelaySelector) (r : Relay) (hwc : WC s) :
    loadStep log10 cfg store_name s r = .ok (loadPost log10 cfg store_name s r) := by
  unfold loadStep loadPost
  rw [insert_eq log10 cfg s r.url r.variant hwc]
  rfl

theorem loadPost_lookups_ne (log10 : ℚ → ℚ) (cfg : Config) (store_name : String)
    (s : RelaySelector) (r : Relay) (u : String) (h : u ≠ r.url) :
    mlookup (loadPost log10 cfg store_name s r).statistics u = mlookup s.statistics u
    ∧ mlookup (loadPost log10 cfg store_name s r).initial_weights u
        = mlookup s.initial_weights u
    ∧ mlookup (loadPost log10 cfg store_name s r).current_weights u
        = mlookup s.current_weights u := by
  obtain ⟨h1, h2, h3⟩ := insertPost_lookups_ne log10 cfg s r.url r.variant u h
  exact ⟨by simp only [loadPost]; rw [mlookup_mupsert_ne _ _ _ _ h]; exact h1,
    by simp only [loadPost]; rw [mlookup_mupsert_ne _ _ _ _ h]; exact h2,
    by simp only [loadPost]; rw [mlookup_mupsert_ne _ _ _ _ h]; exact h3⟩

theorem loadPost_lookups_self (log10 : ℚ → ℚ) (cfg : Config) (store_name : String)
    (s : RelaySelector) (r : Relay) :
    mlookup (loadPost log10 cfg store_name s r).statistics r.url = some r.to_statistics
    ∧ mlookup (loadPost log10 cfg store_name s r).initial_weights r.url = some r.weight
    ∧ mlookup (loadPost log10 cfg store_name s r).current_weights r.url = some r.weight := by
  simp [loadPost, mlookup_mupsert_self]

theorem loadPost_mem (log10 : ℚ → ℚ) (cfg : Config) (store_name : String)
    (s : RelaySelector) (r : Relay) (u : String) :
    (u ∈ (loadPost log10 cfg store_name s r).general
      ↔ u ∈ s.general ∨ ((r.variant = .general ∨ r.variant = .local) ∧ u = r.url))
    ∧ (u ∈ (loadPost log10 cfg store_name s r).inbox
      ↔ u ∈ s.inbox ∨ (r.variant = .inbox ∧ u = r.url))
    ∧ (u ∈ (loadPost log10 cfg store_name s r).outbox
      ↔ u ∈ s.outbox ∨ (r.variant = .outbox ∧ u = r.url)) :=
  ⟨insertPost_mem_general log10 cfg s r.url r.variant u,
   insertPost_mem_inbox log10 cfg s r.url r.variant u,
   insertPost_mem_outbox log10 cfg s r.url r.variant u⟩

theorem loadPost_WC (log10 : ℚ → ℚ) (cfg : Config) (store_name : String)
    (s : RelaySelector) (r : Relay) (hwc : WC s) :
    WC (loadPost log10 cfg store_name s r) := by
  obtain ⟨hg, hi, ho⟩ := insertPost_WC log10 cfg s r.url r.variant hwc
  exact ⟨fun u hu => by
      by_cases he : u = r.url
      · rw [he]; simp [loadPost, mlookup_mupsert_self]
      · simp only [loadPost]; rw [mlookup_mupsert_ne _ _ _ _ he]; exact hg u hu,
    fun u hu => by
      by_cases he : u = r.url
      · rw [he]; simp [loadPost, mlookup_mupsert_self]
      · simp only [loadPost]; rw [mlookup_mupsert_ne _ _ _ _ he]; exact hi u hu,
    fun u hu => by
      by_cases he : u = r.url
      · rw [he]; simp [loadPost, mlookup_mupsert_self]
      · simp only [loadPost]; rw [mlookup_mupsert_ne _ _ _ _ he]; exact ho u hu⟩

theorem loadLoop_ok (log10 : ℚ → ℚ) (cfg : Config) (sn : String) (rs : List Relay) :
    ∀ s : RelaySelector, WC s →
    ∃ s', rs.foldlM (loadStep log10 cfg sn) s = .ok s' ∧ WC s'
      ∧ (∀ u, (∀ r ∈ rs, r.url ≠ u) →
          mlookup s'.statistics u = mlookup s.statistics u
          ∧ mlookup s'.initial_weights u = mlookup s.initial_weights u
          ∧ mlookup s'.current_weights u = mlookup s.current_weights u)
      ∧ (∀ u, (∃ r ∈ rs, r.url = u) →
          ∃ r ∈ rs, r.url = u ∧ mlookup s'.statistics u = some r.to_statistics
            ∧ mlookup s'.initial_weights u = some r.weight
            ∧ mlookup s'.current_weights u = some r.weight)
      ∧ (∀ u, u ∈ s'.general
          ↔ u ∈ s.general ∨ ∃ r ∈ rs, r.url = u ∧ (r.variant = .general ∨ r.variant = .local))
      ∧ (∀ u, u ∈ s'.inbox ↔ u ∈ s.inbox ∨ ∃ r ∈ rs, r.url = u ∧ r.variant = .inbox)
      ∧ (∀ u, u ∈ s'.outbox ↔ u ∈ s.outbox ∨ ∃ r ∈ rs, r.url = u ∧ r.variant = .outbox) := by
  induction rs with
  | nil =>
    intro s hwc
    exact ⟨s, rfl, hwc, fun u _ => ⟨rfl, rfl, rfl⟩, fun u hu => by simp at hu,
      fun u => by simp, fun u => by simp, fun u => by simp⟩
  | cons r rest ih =>
    intro s hwc
    obtain ⟨s', hrun, hwc', hne, hyes, hg, hi, ho⟩ :=
      ih (loadPost log10 cfg sn s r) (loadPost_WC log10 cfg sn s r hwc)
    refine ⟨s', ?_, hwc', ?_, ?_, ?_, ?_, ?_⟩
    · rw [List.foldlM_cons, loadStep_eq log10 cfg sn s r hwc, except_bind_ok]
      exact hrun
    · intro u hu
      have hhd : u ≠ r.url := fun he => hu r (List.mem_cons_self r rest) he.symm
      have hrest : ∀ r' ∈ rest, r'.url ≠ u := fun r' hr' => hu r' (List.mem_cons_of_mem r hr')
      obtain ⟨e1, e2, e3⟩ := hne u hrest
      obtain ⟨f1, f2, f3⟩ := loadPost_lookups_ne log10 cfg sn s r u hhd
      exact ⟨e1.trans f1, e2.trans f2, e3.trans f3⟩
    · intro u hu
      by_cases hrest : ∃ r' ∈ rest, r'.url = u
      · obtain ⟨r', hr', hurl, q1, q2, q3⟩ := hyes u hrest
        exact ⟨r', List.mem_cons_of_mem r hr', hurl, q1, q2, q3⟩
      · have hhd : r.url = u := by
          rcases hu with ⟨r', hr', hurl⟩
          rcases List.mem_cons.mp hr' with he | he
          · rw [← he]; exact hurl
          · exact absurd ⟨r', he, hurl⟩ hrest
        have hrest' : ∀ r' ∈ rest, r'.url ≠ u :=
          fun r' hr' he => hrest ⟨r', hr', he⟩
        obtain ⟨e1, e2, e3⟩ := hne u hrest'
        obtain ⟨f1, f2, f3⟩ := loadPost_lookups_self log10 cfg sn s r
        subst hhd
        exact ⟨r, List.mem_cons_self r rest, rfl, e1.trans f1, e2.trans f2, e3.trans f3⟩
    · intro u
      rw [hg u, (loadPost_mem log10 cfg sn s r u).1]
      constructor
      · rintro ((h | ⟨hv, hu⟩) | ⟨r', hr', hurl, hv⟩)
        · exact Or.inl h
        · exact Or.inr ⟨r, List.mem_cons_self r rest, hu.symm, hv⟩
        · exact Or.inr ⟨r', List.mem_cons_of_mem r hr', hurl, hv⟩
      · rintro (h | ⟨r', hr', hurl, hv⟩)
        · exact Or.inl (Or.inl h)
        · rcases List.mem_cons.mp hr' with he | he
          · subst he; exact Or.inl (Or.inr ⟨hv, hurl.symm⟩)
          · exact Or.inr ⟨r', he, hurl, hv⟩
    · intro u
      rw [hi u, (loadPost_mem log10 cfg sn s r u).2.1]
      constructor
      · rintro ((h | ⟨hv, hu⟩) | ⟨r', hr', hurl, hv⟩)
        · exact Or.inl h
        · exact Or.inr ⟨r, List.mem_cons_self r rest, hu.symm, hv⟩
        · exact Or.inr ⟨r', List.mem_cons_of_mem r hr', hurl, hv⟩
      · rintro (h | ⟨r', hr', hurl, hv⟩)
        · exact Or.inl (Or.inl h)
        · rcases List.mem_cons.mp hr' with he | he
          · subst he; exact Or.inl (Or.inr ⟨hv, hurl.symm⟩)
          · exact Or.inr ⟨r', he, hurl, hv⟩
    · intro u
      rw [ho u, (loadPost_mem log10 cfg sn s r u).2.2]
      constructor
      · rintro ((h | ⟨hv, hu⟩) | ⟨r', hr', hurl, hv⟩)
        · exact Or.inl h
        · exact Or.inr ⟨r, List.mem_cons_self r rest, hu.symm, hv⟩
        · exact Or.inr ⟨r', List.mem_cons_of_mem r hr', hurl, hv⟩
      · rintro (h | ⟨r', hr', hurl, hv⟩)
        · exact Or.inl (Or.inl h)
        · rcases List.mem_cons.mp hr' with he | he
          · subst he; exact Or.inl (Or.inr ⟨hv, hurl.symm⟩)
          · exact Or.inr ⟨r', he, hurl, hv⟩

theorem Relay.to_statistics_active (r : Relay) : r.to_statistics.active_connections = 0 := rfl

theorem WC_new : WC RelaySelector.new :=
  ⟨fun u hu => by simp [RelaySelector.new] at hu,
   fun u hu => by simp [RelaySelector.new] at hu,
   fun u hu => by simp [RelaySelector.new] at hu⟩

/-- C10: the persisted record schema (`database::schema::Relay`) carries no
active-connection count, so after any `init` that loads persisted records —
records that cover all three variants, so that the default seeding does not
fire — every loaded relay's statistics are adopted with
`active_connections = 0` and both its weights equal the record's persisted
initial weight, regardless of how many checkouts were live when the state was
saved. -/
theorem c10_loaded_relays_forget_live_checkouts (log10 : ℚ → ℚ) (cfg : Config)
    (sn : String) (records : List Relay)
    (hgen : ∃ r ∈ records, r.variant = .general ∨ r.variant = .local)
    (hinb : ∃ r ∈ records, r.variant = .inbox)
    (houtb : ∃ r ∈ records, r.variant = .outbox) :
    ∃ s', RelaySelector.init log10 cfg sn records = .ok s'
      ∧ ∀ u, (∃ r ∈ records, r.url = u) →
          ∃ r ∈ records, r.url = u
            ∧ mlookup s'.statistics u = some r.to_statistics
            ∧ r.to_statistics.active_connections = 0
            ∧ mlookup s'.initial_weights u = some r.weight
            ∧ mlookup s'.current_weights u = some r.weight := by
  obtain ⟨s', hrun, hwc', hne, hyes, hg, hi, ho⟩ :=
    loadLoop_ok log10 cfg sn records RelaySelector.new WC_new
  have hg' : s'.general ≠ [] := by
    obtain ⟨r, hr, hv⟩ := hgen
    exact List.ne_nil_of_mem ((hg r.url).mpr (Or.inr ⟨r, hr, rfl, hv⟩))
  have hi' : s'.inbox ≠ [] := by
    obtain ⟨r, hr, hv⟩ := hinb
    exact List.ne_nil_of_mem ((hi r.url).mpr (Or.inr ⟨r, hr, rfl, hv⟩))
  have ho' : s'.outbox ≠ [] := by
    obtain ⟨r, hr, hv⟩ := houtb
    exact List.ne_nil_of_mem ((ho r.url).mpr (Or.inr ⟨r, hr, rfl, hv⟩))
  refine ⟨s', ?_, ?_⟩
  · unfold RelaySelector.init
    rw [hrun, except_bind_ok, if_neg (by simp [hg', hi', ho'])]
    rfl
  · intro u hu
    obtain ⟨r, hr, hurl, q1, q2, q3⟩ := hyes u hu
    exact ⟨r, hr, hurl, q1, Relay.to_statistics_active r, q2, q3⟩

/-- Witness for C10 at a concrete record set covering the three variants. -/
theorem c10_loaded_relays_forget_live_checkouts_witness :
    ∃ s', RelaySelector.init l10z cfg0 "relay_selector_store" c3records = .ok s'
      ∧ ∀ u, (∃ r ∈ c3records, r.url = u) →
          ∃ r ∈ c3records, r.url = u
            ∧ mlookup s'.statistics u = some r.to_statistics
            ∧ r.to_statistics.active_connections = 0
            ∧ mlookup s'.initial_weights u = some r.weight
            ∧ mlookup s'.current_weights u = some r.weight :=
  c10_loaded_relays_forget_live_checkouts l10z cfg0 "relay_selector_store" c3records
    (by decide) (by decide) (by decide)

set_option maxRecDepth 2000 in
/-- C7: the claim says a duplicate `insert(u, v)` is a no-op (the URL must not
appear twice and its statistics and weights must be unchanged).  The source's
`insert` has no `contains` check: it pushes the URL onto the variant list
unconditionally and overwrites the existing statistics with a fresh
`Statistics::new` and the weight maps with fresh defaults.  Starting from a
selector that already holds `wss://a` (with one recorded request), a second
insert leaves the URL twice in `general` and resets its statistics.  The claim
is right and the code is wrong. -/
theorem c7_duplicate_insert_duplicates_url_and_resets_statistics :
    (selIdle.insert l10z cfg0 "wss://a" .general).map
        (fun s => (s.general, mlookup s.statistics "wss://a",
                   mlookup s.current_weights "wss://a"))
      = .ok (["wss://a", "wss://a"], some Statistics.new, some 0)
    ∧ mlookup selIdle.statistics "wss://a" = some statIdle
    ∧ statIdle ≠ Statistics.new
    ∧ mlookup selIdle.current_weights "wss://a" = some 2 :=
  ⟨of_decide_eq_true (by with_unfolding_all rfl), by decide, by decide, by decide⟩

/-- C9: server-side checkouts are denied unless the selected URL is on the
fetched allowlist, and an allowlist fetch failure degrades to an empty
allowlist (deny, never permit): `get_relay_by_weighted_round_robin` computes
`is_allowed` with `.and_then(..).unwrap_or(false)` and errors when
`is_server_side && !is_allowed`. -/
theorem c9_server_side_checkout_denied_without_allowlist_entry :
    (∀ (log10 : ℚ → ℚ) (fetched : Except String (List String)) (s : RelaySelector)
        (variant : Variant) (rank : Nat) (ranked : List String) (selected : String),
        variantListOf s variant = some ranked →
        ranked.get? rank = some selected →
        (∀ l, fetched = .ok l → selected ∉ l) →
        s.get_relay_by_weighted_round_robin log10 fetched variant rank true
          = .ok (.error (.notAllowed selected)))
    ∧ ∀ (e : String) (u : String), isAllowedOf (.error e) u = false := by
  constructor
  · intro log10 fetched s variant rank ranked selected hlist hsel habs
    have hdeny : isAllowedOf fetched selected = false := by
      cases fetched with
      | error e => rfl
      | ok l =>
        have hmem : selected ∉ l := habs l rfl
        simp only [isAllowedOf, List.any_eq_false, decide_eq_true_eq]
        exact fun r hr he => hmem (he ▸ hr)
    simp only [RelaySelector.get_relay_by_weighted_round_robin, hlist, hsel, hdeny]
    simp [except_pure_eq_ok]
  · intro e u
    rfl

/-- Witness for C9: the server-side checkout of `wss://a` at rank 0 is denied
when the fetched allowlist does not contain it, and a failed fetch denies. -/
theorem c9_server_side_checkout_denied_witness :
    selIdle.get_relay_by_weighted_round_robin l10z (.ok ["wss://allowed"]) .general 0 true
      = .ok (.error (.notAllowed "wss://a"))
    ∧ isAllowedOf (.error "fetch failed") "wss://a" = false :=
  ⟨c9_server_side_checkout_denied_without_allowlist_entry.1 l10z (.ok ["wss://allowed"])
      selIdle .general 0 ["wss://a"] "wss://a" rfl rfl
      (fun l h => by cases h; decide),
   c9_server_side_checkout_denied_without_allowlist_entry.2 "fetch failed" "wss://a"⟩

/-- A checkout run from the state loaded out of `c3records`: select the rank-0
general relay on the client side (the allowlist fetch fails, which a
client-side checkout ignores). -/
def c2checkout : Except Crash (Except SelError (String × RelaySelector)) := do
  let s0 ← RelaySelector.init l10z cfg0 "relay_selector_store" c3records
  s0.get_relay_by_weighted_round_robin l10z (.error "no allowlist") .general 0 false

/-- The save / fresh-init round trip of the state `c2checkout` reaches. -/
def c2roundtrip : Except Crash RelaySelector := do
  let r ← c2checkout
  match r with
  | .error _ => Except.error Crash.assertFailed
  | .ok (_, S) => do
      let recs ← S.save
      RelaySelector.init l10z cfg0 "relay_selector_store"
        (get_all_relays (insert_or_update [] recs))

set_option maxRecDepth 4000 in
/-- C2 — counterexample: the round trip does *not* preserve the scheduler
state for every reachable state.  The state `S` reached by `init` on
`c3records` followed by one checkout (a public `get_relay` call) holds
`wss://b` with `active_connections = 1` and
`current_weights = 11/10 = initial + CONNECTION_WEIGHT`; the persisted record
schema drops the active count and `init` sets both weight maps to the
persisted initial weight, so the reloaded `S'` holds `active_connections = 0`
and `current_weights = 1`: the statistics and current-weights maps differ. -/
theorem c2_roundtrip_counterexample :
    (c2checkout.map (fun r => r.map (fun p => (p.1,
        (mlookup p.2.statistics "wss://b").map Statistics.active_connections,
        mlookup p.2.current_weights "wss://b"))))
      = .ok (.ok ("wss://b", some 1, some (11/10)))
    ∧ (c2roundtrip.map (fun s =>
        ((mlookup s.statistics "wss://b").map Statistics.active_connections,
         mlookup s.current_weights "wss://b")))
      = .ok (some 0, some 1) :=
  ⟨of_decide_eq_true (by with_unfolding_all rfl),
   of_decide_eq_true (by with_unfolding_all rfl)⟩

/-- All URLs appearing in some variant list. -/
def listedUrls (s : RelaySelector) : List String := s.general ++ s.inbox ++ s.outbox

/-- The registry invariants of a quiescent scheduler: nonempty, duplicate-free,
pairwise-disjoint variant lists; every listed URL has statistics with no live
checkout and agreeing weight maps; and the maps mention only listed URLs. -/
def WF (s : RelaySelector) : Prop :=
  s.general ≠ [] ∧ s.inbox ≠ [] ∧ s.outbox ≠ []
  ∧ s.general.Nodup ∧ s.inbox.Nodup ∧ s.outbox.Nodup
  ∧ (∀ u ∈ s.general, u ∉ s.inbox ∧ u ∉ s.outbox)
  ∧ (∀ u ∈ s.inbox, u ∉ s.outbox)
  ∧ (∀ u ∈ listedUrls s, (mlookup s.statistics u).isSome
      ∧ ((mlookup s.statistics u).getD Statistics.new).active_connections = 0)
  ∧ (∀ u ∈ listedUrls s, (mlookup s.initial_weights u).isSome
      ∧ mlookup s.current_weights u = mlookup s.initial_weights u)
  ∧ (∀ p ∈ s.statistics, p.1 ∈ listedUrls s)
  ∧ (∀ p ∈ s.initial_weights, p.1 ∈ listedUrls s)
  ∧ (∀ p ∈ s.current_weights, p.1 ∈ listedUrls s)

/-- The record the teardown flush writes for a (variant, url) pair. -/
def recOf (s : RelaySelector) (v : Variant) (u : String) : Relay :=
  let st := (mlookup s.statistics u).getD Statistics.new
  { url := u, variant := v
    requests := st.requests
    successful_requests := st.successful_requests
    response_times := st.response_times
    trust_level := st.trust_level
    vendor_score := st.vendor_score
    weight := (mlookup s.initial_weights u).getD 0 }

theorem recOf_url (s : RelaySelector) (v : Variant) (u : String) : (recOf s v u).url = u := rfl

theorem recOf_variant (s : RelaySelector) (v : Variant) (u : String) :
    (recOf s v u).variant = v := rfl

theorem snap_mapM (s : RelaySelector) (v : Variant) (l : List String)
    (h : ∀ u ∈ l, (mlookup s.statistics u).isSome ∧ (mlookup s.initial_weights u).isSome) :
    (l.mapM (fun url =>
        match mlookup s.statistics url with
        | none => Except.error Crash.unwrapNone
        | some st => Relay.from_repositories url v st s))
      = .ok (l.map (recOf s v)) := by
  induction l with
  | nil => rfl
  | cons u rest ih =>
    obtain ⟨h1, h2⟩ := h u (List.mem_cons_self u rest)
    obtain ⟨st, hst⟩ := Option.isSome_iff_exists.mp h1
    obtain ⟨q, hq⟩ := Option.isSome_iff_exists.mp h2
    have hrec : Relay.from_repositories u v st s = .ok (recOf s v u) := by
      unfold Relay.from_repositories recOf
      rw [hq, hst]
      rfl
    rw [List.mapM_cons, hst]
    simp only [hrec, ih (fun u' hu' => h u' (List.mem_cons_of_mem u hu')), except_bind_ok,
      except_pure_eq_ok, List.map_cons]

theorem save_eq (s : RelaySelector)
    (h : ∀ u ∈ listedUrls s,
      (mlookup s.statistics u).isSome ∧ (mlookup s.initial_weights u).isSome) :
    s.save = .ok (s.general.map (recOf s .general) ++ s.inbox.map (recOf s .inbox)
      ++ s.outbox.map (recOf s .outbox)) := by
  have hg : ∀ u ∈ s.general, _ :=
    fun u hu => h u (by simp [listedUrls, hu])
  have hi : ∀ u ∈ s.inbox, _ :=
    fun u hu => h u (by simp [listedUrls, hu])
  have ho : ∀ u ∈ s.outbox, _ :=
    fun u hu => h u (by simp [listedUrls, hu])
  simp only [RelaySelector.save]
  rw [snap_mapM s .general s.general hg, except_bind_ok,
    snap_mapM s .inbox s.inbox hi, except_bind_ok,
    snap_mapM s .outbox s.outbox ho, except_bind_ok]
  simp [List.append_assoc, except_pure_eq_ok]

theorem storePut_foldl (rs : List Relay) :
    ∀ acc : List Relay, (∀ r ∈ rs, ∀ x ∈ acc, x.url ≠ r.url) → (rs.map Relay.url).Nodup →
    rs.foldl storePut acc = acc ++ rs := by
  induction rs with
  | nil => intro acc _ _; simp
  | cons r rest ih =>
    intro acc hd hn
    have hn' : (∀ x ∈ rest, ¬x.url = r.url) ∧ (rest.map Relay.url).Nodup := by
      simpa using hn
    have hfilter : acc.filter (fun x => x.url ≠ r.url) = acc := by
      apply List.filter_eq_self.mpr
      intro x hx
      simpa using hd r (List.mem_cons_self r rest) x hx
    simp only [List.foldl_cons, storePut, hfilter]
    rw [ih (acc ++ [r]) ?_ hn'.2]
    · simp
    · intro r' hr' x hx
      rcases List.mem_append.mp hx with hx | hx
      · exact hd r' (List.mem_cons_of_mem r hr') x hx
      · simp only [List.mem_singleton] at hx
        subst hx
        exact fun he => hn'.1 r' hr' he.symm

theorem insert_or_update_nil (recs : List Relay) (hn : (recs.map Relay.url).Nodup) :
    insert_or_update [] recs = recs := by
  unfold insert_or_update
  rw [storePut_foldl recs [] (by simp) hn]
  simp

theorem get_all_perm (store : List Relay) : List.Perm (get_all_relays store) store :=
  List.perm_insertionSort _ store

theorem to_statistics_recOf (s : RelaySelector) (v : Variant) (u : String) (st : Statistics)
    (hst : mlookup s.statistics u = some st) (hact : st.active_connections = 0) :
    (recOf s v u).to_statistics = st := by
  cases st with
  | mk req succ times trust vendor act =>
    simp only [Statistics.active_connections] at hact
    subst hact
    simp [recOf, Relay.to_statistics, hst, Statistics.new]

theorem recOf_weight (s : RelaySelector) (v : Variant) (u : String) (q : ℚ)
    (hq : mlookup s.initial_weights u = some q) : (recOf s v u).weight = q := by
  simp [recOf, hq]

theorem mlookup_eq_none_of_unlisted {α : Type} (m : List (String × α)) (L : List String)
    (u : String) (h : ∀ p ∈ m, p.1 ∈ L) (hu : u ∉ L) : mlookup m u = none := by
  induction m with
  | nil => rfl
  | cons p rest ih =>
    obtain ⟨k, v⟩ := p
    have hk : k ∈ L := h (k, v) (List.mem_cons_self (k, v) rest)
    simp only [mlookup]
    rw [if_neg (fun he : k = u => hu (he ▸ hk)),
      ih (fun p' hp' => h p' (List.mem_cons_of_mem (k, v) hp'))]

/-- C2 — the amended claim: for a scheduler state satisfying the registry
invariants with **no live checkouts** (every `active_connections` is 0 and the
current weights agree with the initial weights, each URL in exactly one
nonempty, duplicate-free variant list, maps mentioning only listed URLs — the
weakening the counterexample `c2_roundtrip_counterexample` forces, since the
persisted schema drops the active-connection count and the store is keyed by
URL), saving and re-initialising from the same store restores the statistics
map, both weight maps, and every variant-list membership. -/
theorem c2_roundtrip_amended (log10 : ℚ → ℚ) (cfg : Config) (sn : String)
    (S : RelaySelector) (hWF : WF S) :
    ∃ recs S', S.save = .ok recs
      ∧ RelaySelector.init log10 cfg sn (get_all_relays (insert_or_update [] recs)) = .ok S'
      ∧ (∀ u, mlookup S'.statistics u = mlookup S.statistics u)
      ∧ (∀ u, mlookup S'.initial_weights u = mlookup S.initial_weights u)
      ∧ (∀ u, mlookup S'.current_weights u = mlookup S.current_weights u)
      ∧ (∀ u, (u ∈ S'.general ↔ u ∈ S.general) ∧ (u ∈ S'.inbox ↔ u ∈ S.inbox)
          ∧ (u ∈ S'.outbox ↔ u ∈ S.outbox)) := by
  obtain ⟨hgne, hine, hone, hgnd, hind, hond, hdisg, hdisio, hstats, hw, hds, hdi, hdc⟩ := hWF
  set recs := S.general.map (recOf S .general) ++ S.inbox.map (recOf S .inbox)
      ++ S.outbox.map (recOf S .outbox) with hrecs
  have hsave : S.save = .ok recs :=
    save_eq S (fun u hu => ⟨(hstats u hu).1, (hw u hu).1⟩)
  have hurls : recs.map Relay.url = listedUrls S := by
    simp [hrecs, listedUrls, List.map_map, Function.comp_def, recOf_url]
  have hnd : (recs.map Relay.url).Nodup := by
    rw [hurls]
    simp only [listedUrls]
    rw [List.nodup_append, List.nodup_append]
    refine ⟨⟨hgnd, hind, fun u hu hu2 => (hdisg u hu).1 hu2⟩, hond, fun u hu hu2 => ?_⟩
    rcases List.mem_append.mp hu with h | h
    · exact (hdisg u h).2 hu2
    · exact hdisio u h hu2
  have hdecomp : ∀ r ∈ recs,
      (∃ u ∈ S.general, recOf S .general u = r) ∨ (∃ u ∈ S.inbox, recOf S .inbox u = r)
      ∨ (∃ u ∈ S.outbox, recOf S .outbox u = r) := by
    intro r hr
    rw [hrecs] at hr
    rcases List.mem_append.mp hr with hr1 | hr1
    · rcases List.mem_append.mp hr1 with hr2 | hr2
      · exact Or.inl (List.mem_map.mp hr2)
      · exact Or.inr (Or.inl (List.mem_map.mp hr2))
    · exact Or.inr (Or.inr (List.mem_map.mp hr1))
  have hr_listed : ∀ r ∈ recs, r.url ∈ listedUrls S :=
    fun r hr => hurls ▸ List.mem_map_of_mem Relay.url hr
  have hstore : get_all_relays (insert_or_update [] recs) = get_all_relays recs := by
    rw [insert_or_update_nil recs hnd]
  have hperm : List.Perm (get_all_relays recs) recs := get_all_perm recs
  obtain ⟨s', hrun, hwc', hne, hyes, hg, hi, ho⟩ :=
    loadLoop_ok log10 cfg sn (get_all_relays recs) RelaySelector.new WC_new
  -- variant-list memberships are restored
  have hGmem : ∀ u, u ∈ s'.general ↔ u ∈ S.general := by
    intro u
    rw [hg u]
    constructor
    · rintro (h | ⟨r, hr, hurl, hv⟩)
      · simp [RelaySelector.new] at h
      · rcases hdecomp r (hperm.mem_iff.mp hr) with ⟨u', hu', he⟩ | ⟨u', hu', he⟩ | ⟨u', hu', he⟩ <;>
          subst he
        · rw [recOf_url] at hurl; exact hurl ▸ hu'
        · rw [recOf_variant] at hv; rcases hv with hv | hv <;> cases hv
        · rw [recOf_variant] at hv; rcases hv with hv | hv <;> cases hv
    · intro hu
      refine Or.inr ⟨recOf S .general u, hperm.mem_iff.mpr ?_, recOf_url _ _ _,
        Or.inl (recOf_variant _ _ _)⟩
      rw [hrecs]
      exact List.mem_append.mpr (Or.inl (List.mem_append.mpr
        (Or.inl (List.mem_map_of_mem _ hu))))
  have hImem : ∀ u, u ∈ s'.inbox ↔ u ∈ S.inbox := by
    intro u
    rw [hi u]
    constructor
    · rintro (h | ⟨r, hr, hurl, hv⟩)
      · simp [RelaySelector.new] at h
      · rcases hdecomp r (hperm.mem_iff.mp hr) with ⟨u', hu', he⟩ | ⟨u', hu', he⟩ | ⟨u', hu', he⟩ <;>
          subst he
        · rw [recOf_variant] at hv; cases hv
        · rw [recOf_url] at hurl; exact hurl ▸ hu'
        · rw [recOf_variant] at hv; cases hv
    · intro hu
      refine Or.inr ⟨recOf S .inbox u, hperm.mem_iff.mpr ?_, recOf_url _ _ _,
        recOf_variant _ _ _⟩
      rw [hrecs]
      exact List.mem_append.mpr (Or.inl (List.mem_append.mpr
        (Or.inr (List.mem_map_of_mem _ hu))))
  have hOmem : ∀ u, u ∈ s'.outbox ↔ u ∈ S.outbox := by
    intro u
    rw [ho u]
    constructor
    · rintro (h | ⟨r, hr, hurl, hv⟩)
      · simp [RelaySelector.new] at h
      · rcases hdecomp r (hperm.mem_iff.mp hr) with ⟨u', hu', he⟩ | ⟨u', hu', he⟩ | ⟨u', hu', he⟩ <;>
          subst he
        · rw [recOf_variant] at hv; cases hv
        · rw [recOf_variant] at hv; cases hv
        · rw [recOf_url] at hurl; exact hurl ▸ hu'
    · intro hu
      refine Or.inr ⟨recOf S .outbox u, hperm.mem_iff.mpr ?_, recOf_url _ _ _,
        recOf_variant _ _ _⟩
      rw [hrecs]
      exact List.mem_append.mpr (Or.inr (List.mem_map_of_mem _ hu))
  -- lookups are restored
  have hlook : ∀ u, mlookup s'.statistics u = mlookup S.statistics u
      ∧ mlookup s'.initial_weights u = mlookup S.initial_weights u
      ∧ mlookup s'.current_weights u = mlookup S.current_weights u := by
    intro u
    by_cases hu : u ∈ listedUrls S
    · have hex : ∃ r ∈ get_all_relays recs, r.url = u := by
        rcases List.mem_append.mp hu with hu' | hu'
        · rcases List.mem_append.mp hu' with hu'' | hu''
          · exact ⟨recOf S .general u, hperm.mem_iff.mpr (by
              rw [hrecs]
              exact List.mem_append.mpr (Or.inl (List.mem_append.mpr
                (Or.inl (List.mem_map_of_mem _ hu''))))), recOf_url _ _ _⟩
          · exact ⟨recOf S .inbox u, hperm.mem_iff.mpr (by
              rw [hrecs]
              exact List.mem_append.mpr (Or.inl (List.mem_append.mpr
                (Or.inr (List.mem_map_of_mem _ hu''))))), recOf_url _ _ _⟩
        · exact ⟨recOf S .outbox u, hperm.mem_iff.mpr (by
            rw [hrecs]
            exact List.mem_append.mpr (Or.inr (List.mem_map_of_mem _ hu'))),
            recOf_url _ _ _⟩
      obtain ⟨r, hr, hurl, q1, q2, q3⟩ := hyes u hex
      obtain ⟨st, hst⟩ := Option.isSome_iff_exists.mp (hstats u hu).1
      have hact : st.active_connections = 0 := by
        have := (hstats u hu).2
        rw [hst] at this
        simpa using this
      obtain ⟨q, hq⟩ := Option.isSome_iff_exists.mp (hw u hu).1
      have hcur : mlookup S.current_weights u = some q := by
        rw [(hw u hu).2, hq]
      have hrv : ∃ v : Variant, recOf S v u = r := by
        rcases hdecomp r (hperm.mem_iff.mp hr) with ⟨u', hu', he⟩ | ⟨u', hu', he⟩ | ⟨u', hu', he⟩ <;>
          subst he <;> rw [recOf_url] at hurl <;> subst hurl
        · exact ⟨.general, rfl⟩
        · exact ⟨.inbox, rfl⟩
        · exact ⟨.outbox, rfl⟩
      obtain ⟨v, hv⟩ := hrv
      subst hv
      refine ⟨?_, ?_, ?_⟩
      · rw [q1, to_statistics_recOf S v u st hst hact, hst]
      · rw [q2, recOf_weight S v u q hq, hq]
      · rw [q3, recOf_weight S v u q hq, hcur]
    · have hnone : ∀ r ∈ get_all_relays recs, r.url ≠ u :=
        fun r hr he => hu (he ▸ hr_listed r (hperm.mem_iff.mp hr))
      obtain ⟨e1, e2, e3⟩ := hne u hnone
      refine ⟨?_, ?_, ?_⟩
      · rw [e1, mlookup_eq_none_of_unlisted S.statistics (listedUrls S) u hds hu]; rfl
      · rw [e2, mlookup_eq_none_of_unlisted S.initial_weights (listedUrls S) u hdi hu]; rfl
      · rw [e3, mlookup_eq_none_of_unlisted S.current_weights (listedUrls S) u hdc hu]; rfl
  -- the variant lists are nonempty after the load, so no default seeding runs
  have hg'ne : s'.general ≠ [] := by
    obtain ⟨u, hu⟩ := List.exists_mem_of_ne_nil S.general hgne
    exact List.ne_nil_of_mem ((hGmem u).mpr hu)
  have hi'ne : s'.inbox ≠ [] := by
    obtain ⟨u, hu⟩ := List.exists_mem_of_ne_nil S.inbox hine
    exact List.ne_nil_of_mem ((hImem u).mpr hu)
  have ho'ne : s'.outbox ≠ [] := by
    obtain ⟨u, hu⟩ := List.exists_mem_of_ne_nil S.outbox hone
    exact List.ne_nil_of_mem ((hOmem u).mpr hu)
  refine ⟨recs, s', hsave, ?_, fun u => (hlook u).1, fun u => (hlook u).2.1,
    fun u => (hlook u).2.2, fun u => ⟨hGmem u, hImem u, hOmem u⟩⟩
  rw [hstore]
  unfold RelaySelector.init
  rw [hrun, except_bind_ok, if_neg (by simp [hg'ne, hi'ne, ho'ne])]
  rfl

/-- A quiescent three-relay scheduler satisfying the registry invariants. -/
def selWF : RelaySelector :=
  { statistics := [("wss://a", statIdle), ("wss://i", statIdle), ("wss://o", statIdle)]
    initial_weights := [("wss://a", 2), ("wss://i", 1), ("wss://o", 1)]
    current_weights := [("wss://a", 2), ("wss://i", 1), ("wss://o", 1)]
    general := ["wss://a"]
    inbox := ["wss://i"]
    outbox := ["wss://o"]
    store_name := "relay_selector_store" }

/-- Witness for the amended C2 at the concrete quiescent scheduler `selWF`. -/
theorem c2_roundtrip_amended_witness :
    WF selWF
    ∧ ∃ recs S', selWF.save = .ok recs
      ∧ RelaySelector.init l10z cfg0 "relay_selector_store"
          (get_all_relays (insert_or_update [] recs)) = .ok S'
      ∧ (∀ u, mlookup S'.statistics u = mlookup selWF.statistics u)
      ∧ (∀ u, mlookup S'.initial_weights u = mlookup selWF.initial_weights u)
      ∧ (∀ u, mlookup S'.current_weights u = mlookup selWF.current_weights u)
      ∧ (∀ u, (u ∈ S'.general ↔ u ∈ selWF.general) ∧ (u ∈ S'.inbox ↔ u ∈ selWF.inbox)
          ∧ (u ∈ S'.outbox ↔ u ∈ selWF.outbox)) :=
  ⟨by unfold WF listedUrls; decide,
   c2_roundtrip_amended l10z cfg0 "relay_selector_store" selWF
     (by unfold WF listedUrls; decide)⟩
